import Mathlib

/-!
Verification development for the `image_registration` repository.

The Python sources under `src/core` and `src/utils` are shallowly embedded
as executable Lean definitions.  Machine floats are modelled by exact
rationals (`ℚ`); numpy / OpenCV / scikit-image primitives that the code
consumes as black boxes (CLAHE, gaussian smoothing, ORB + RANSAC solvers,
`np.corrcoef`, resampling) are modelled as oracle function parameters,
with a raised exception rendered as `Option.none`.  Python functions that
may raise are embedded as `Option`- or `Except`-valued functions.
-/

namespace ImageRegistration

/-! ## Affine geometry (rasterio / affine library)

The `affine` library's `Affine(a, b, c, d, e, f)` represents the 3x3
matrix `[[a, b, c], [d, e, f], [0, 0, 1]]` acting on column vectors.
`A * B` is matrix composition (`(A * B) p = A (B p)`), `~A` is matrix
inversion, raising `TransformNotInvertibleError` exactly when the
determinant `a * e - b * d` is zero. -/

structure AffineQ where
  a : ℚ
  b : ℚ
  c : ℚ
  d : ℚ
  e : ℚ
  f : ℚ
deriving DecidableEq, Repr

/-- Action of an affine map on a point, `(x, y) ↦ (a x + b y + c, d x + e y + f)`. -/
def affineApply (A : AffineQ) (p : ℚ × ℚ) : ℚ × ℚ :=
  (A.a * p.1 + A.b * p.2 + A.c, A.d * p.1 + A.e * p.2 + A.f)

/-- Composition of affine maps, the `affine` library's `__mul__` (matrix product). -/
def affineMul (A B : AffineQ) : AffineQ :=
  ⟨A.a * B.a + A.b * B.d, A.a * B.b + A.b * B.e, A.a * B.c + A.b * B.f + A.c,
   A.d * B.a + A.e * B.d, A.d * B.b + A.e * B.e, A.d * B.c + A.e * B.f + A.f⟩

/-- Determinant of the linear part, the `affine` library's `determinant`. -/
def affineDet (A : AffineQ) : ℚ := A.a * A.e - A.b * A.d

/-- Inversion (`~A` in the `affine` library): `none` models the raised
`TransformNotInvertibleError` on a degenerate (zero-determinant) map. -/
def affineInv (A : AffineQ) : Option AffineQ :=
  if affineDet A = 0 then none
  else
    let idet := 1 / affineDet A
    let ra := A.e * idet
    let rb := -A.b * idet
    let rd := -A.d * idet
    let re := A.a * idet
    some ⟨ra, rb, -A.c * ra - A.f * rb, rd, re, -A.c * rd - A.f * re⟩

/-! ## Pixel-space 2x3 registration matrices -/

/-- A 2x3 pixel-space registration matrix `[[a, b, tx], [c, d, ty]]`
(the numpy arrays produced by `cv2.estimateAffinePartial2D` and by the
phase-shift fallback). -/
structure Mat23 where
  a : ℚ
  b : ℚ
  tx : ℚ
  c : ℚ
  d : ℚ
  ty : ℚ
deriving DecidableEq, Repr

/-- The affine map built from the six coefficients of a registration matrix
(`Affine(a, b, tx, c, d, ty)` in `update_transform_for_registration`). -/
def affineOfMat (R : Mat23) : AffineQ := ⟨R.a, R.b, R.tx, R.c, R.d, R.ty⟩

/-- Embedding of `MetadataManager.update_transform_for_registration`
(`src/core/metadata_utils.py`, lines 426-461).  Returns the original
transform when either argument is `None`; otherwise computes
`original * ~reg` and falls back to the original transform when the
inversion raises (degenerate registration matrix). -/
def update_transform_for_registration (original_transform : Option AffineQ)
    (registration_matrix : Option Mat23) : Option AffineQ :=
  match original_transform, registration_matrix with
  | none, _ => none
  | some A, none => some A
  | some A, some R =>
    match affineInv (affineOfMat R) with
    | none => some A
    | some regInv => some (affineMul A regInv)

/-- Composition of affine maps acts by function composition. -/
theorem affineApply_mul (A B : AffineQ) (p : ℚ × ℚ) :
    affineApply (affineMul A B) p = affineApply A (affineApply B p) := by
  obtain ⟨x, y⟩ := p
  simp only [affineApply, affineMul, Prod.mk.injEq]
  constructor <;> ring

/-- The computed inverse is a left inverse on points. -/
theorem affineInv_apply_apply (A B : AffineQ) (h : affineInv A = some B) (p : ℚ × ℚ) :
    affineApply B (affineApply A p) = p := by
  by_cases hd : affineDet A = 0
  · simp [affineInv, hd] at h
  · simp only [affineInv, hd, if_false, Option.some.injEq] at h
    subst h
    have hd' : A.a * A.e - A.b * A.d ≠ 0 := hd
    obtain ⟨x, y⟩ := p
    simp only [affineApply, affineDet, Prod.mk.injEq]
    constructor
    · field_simp
      ring
    · field_simp
      ring

/-! ## Geospatial metadata and `validate_spatial_consistency` -/

/-- The slice of a band's metadata dictionary used by
`validate_spatial_consistency` (`crs`, `width`, `height`, `transform`).
CRS identifiers are modelled by `Option Nat` (e.g. an EPSG code, `none`
when the source has no CRS); dimensions may be `None` in the extraction
fallback. -/
structure GeoMeta where
  crs : Option Nat
  width : Option Nat
  height : Option Nat
  transform : Option AffineQ
deriving DecidableEq, Repr

/-- Six coefficients of an affine transform in the `affine` library's
indexing order `A[0..5] = (a, b, c, d, e, f)`. -/
def AffineQ.coeffs (A : AffineQ) : List ℚ := [A.a, A.b, A.c, A.d, A.e, A.f]

/-- Tolerance `1e-10` used in the per-coefficient transform comparison. -/
def transformTol : ℚ := 1 / 10 ^ 10

/-- Per-coefficient comparison of two transforms: the loop
`for j in range(6): if abs(m[j] - r[j]) > 1e-10: return False`. -/
def transformsClose (t r : AffineQ) : Bool :=
  (t.coeffs.zip r.coeffs).all fun q => decide (|q.1 - q.2| ≤ transformTol)

/-- One iteration of the loop body of `validate_spatial_consistency`:
CRS equality, dimension equality, then the transform comparison, which
is skipped when either transform is `None` (the Python guard
`if metadata['transform'] and reference['transform']`). -/
def bandConsistent (reference m : GeoMeta) : Bool :=
  decide (m.crs = reference.crs) &&
  (decide (m.width = reference.width) && decide (m.height = reference.height)) &&
  (match m.transform, reference.transform with
   | some t, some r => transformsClose t r
   | _, _ => true)

/-- Embedding of `MetadataManager.validate_spatial_consistency`
(`src/core/metadata_utils.py`, lines 582-617): `False` on an empty list,
otherwise every later band is compared against `metadata_list[0]`. -/
def validate_spatial_consistency : List GeoMeta → Bool
  | [] => false
  | reference :: rest => rest.all (bandConsistent reference)

/-! ## The registration-matrices list built by `register_bands`
(`src/core/image_registration.py`, lines 453-477) -/

/-- The entry appended for the reference band
(`registration_matrices.append(None)`, line 461). -/
def referenceMatrixEntry : Option Mat23 := none

/-- The entry appended for an estimated band.  Line 473 of the source
appends `None` unconditionally (the extraction of the estimated matrix is
left as a TODO placeholder), so the computed per-band transform is
discarded. -/
def estimatedMatrixEntry (_estimated : Option Mat23) : Option Mat23 := none

/-- The registration-matrices list returned by `register_bands` for a
group of `n` bands with reference index `refIdx`; `est i` is the
transform estimated for band `i` (an oracle, unused by the source). -/
def register_bands_matrices (n refIdx : Nat) (est : Nat → Option Mat23) :
    List (Option Mat23) :=
  (List.range n).map fun i =>
    if i = refIdx then referenceMatrixEntry else estimatedMatrixEntry (est i)

/-! ## Output-profile transform in `save_multiband_with_metadata`
(`src/core/metadata_utils.py`, lines 463-497 and 514-526) -/

/-- The geotransform written to the output profile, together with a flag
recording whether `update_transform_for_registration` was invoked.
`create_output_profile` copies the reference transform into the profile
when it is present; `save_multiband_with_metadata` then recomputes it via
`update_transform_for_registration` only when the matrices list is
non-empty and its first entry is not `None`. -/
def save_output_transform (refTransform : Option AffineQ)
    (registration_matrices : List (Option Mat23)) : Option AffineQ × Bool :=
  match refTransform with
  | none => (none, false)
  | some A =>
    match registration_matrices with
    | [] => (some A, false)
    | none :: _ => (some A, false)
    | some R :: _ => (update_transform_for_registration (some A) (some R), true)

/-! ## Metadata-validation step of `register_bands`
(`src/core/image_registration.py`, lines 396-413) and
`process_image_group` (lines 479-517) -/

/-- Embedding of `validate_image_group` (`src/utils/utils.py`, lines
188-215): a group is valid only when it consists of exactly 5 band
paths (the length check is concrete); whether every file exists and
whether the band numbers parsed from the filenames form `{1,2,3,4,5}`
depend on the filesystem and the path strings and are supplied as
oracle flags. -/
def validate_image_group (numPaths : Nat) (allExist bandNumbersOk : Bool) : Bool :=
  decide (numPaths = 5) && allExist && bandNumbersOk

/-- Embedding of the metadata-relevant control flow of `register_bands`:
a `ValueError` is raised when `validate_image_group` fails on the band
paths — the metadata entries are in bijection with the paths (one
`load_image_band_with_metadata` per path, lines 405-409), so the path
count is `metas.length`; in metadata-preserving mode
`validate_spatial_consistency` is then computed, but its result is
discarded (line 413 ignores the return value) and processing continues,
returning the metadata list and the all-`None` matrices list. -/
def register_bands_model (allExist bandNumbersOk : Bool) (metas : List GeoMeta)
    (refIdx : Nat) (est : Nat → Option Mat23) :
    Except String (List GeoMeta × List (Option Mat23)) :=
  if !(validate_image_group metas.length allExist bandNumbersOk) then
    .error "Image group non valido"
  else
    let _consistent := validate_spatial_consistency metas
    .ok (metas, register_bands_matrices metas.length refIdx est)

/-- Embedding of `process_image_group`: any exception from
`register_bands` is caught and yields `False`; otherwise the group is
saved and `True` is returned (`True` models "an output file is written"). -/
def process_image_group (allExist bandNumbersOk : Bool) (metas : List GeoMeta)
    (refIdx : Nat) (est : Nat → Option Mat23) : Bool :=
  match register_bands_model allExist bandNumbersOk metas refIdx est with
  | .error _ => false
  | .ok _ => true

/-! ## Robust affine estimators
(`src/core/image_registration.py` lines 211-242,
`src/core/dual_image_registration.py` lines 212-249)

The external call `cv2.estimateAffinePartial2D` is an oracle of type
`Option (Option Mat23 × Option (List Bool))`: the outer `none` models a
raised exception (caught by the bare `except`), the inner pair is the
returned `(M, mask)` where the mask is a 0/1 vector rendered as
`List Bool`. -/

/-- Number of correspondences marked inlier by the solver (`np.sum(mask)`). -/
def inlierCount (mask : List Bool) : Nat := mask.countP (· = true)

/-- Embedding of `ImageRegistration.estimate_affine_transform`:
reject when either point set has fewer than 6 points; run the solver
(RANSAC, reprojection threshold 3.0, 2000 iterations, confidence 0.99 —
all inside the oracle); return `M` only when the mask is present and
marks at least 6 inliers; any exception yields `None`. -/
def estimate_affine_transform (nRef nTarget : Nat)
    (solver : Option (Option Mat23 × Option (List Bool))) : Option Mat23 :=
  if nRef < 6 ∨ nTarget < 6 then none
  else
    match solver with
    | none => none
    | some (M, mask) =>
      match mask with
      | none => none
      | some m => if 6 ≤ inlierCount m then M else none

/-- Embedding of `DualImageRegistration.estimate_transform_robust`: the
same acceptance policy as `estimate_affine_transform` (the solver oracle
differs only in its RANSAC parameters: threshold 5.0, 3000 iterations,
confidence 0.95). -/
def estimate_transform_robust (nRef nTarget : Nat)
    (solver : Option (Option Mat23 × Option (List Bool))) : Option Mat23 :=
  if nRef < 6 ∨ nTarget < 6 then none
  else
    match solver with
    | none => none
    | some (M, mask) =>
      match mask with
      | none => none
      | some m => if 6 ≤ inlierCount m then M else none

/-! ## The fallback state machine `register_single_band`
(`src/core/image_registration.py`, lines 345-384) -/

/-- Provenance tag of the transform chosen by `register_single_band`
(the `method_used` string; `phaseShift dy dx` stands for the formatted
string `"phase_shift(dy,dx)"`). -/
inductive RegMethod where
  | stillNone
  | features
  | slic
  | phaseShift (dy dx : ℚ)
deriving DecidableEq, Repr

/-- The translation-only matrix `np.float32([[1, 0, shift_x], [0, 1, shift_y]])`
built by the phase-correlation fallback. -/
def phaseMat (dy dx : ℚ) : Mat23 := ⟨1, 0, dx, 0, 1, dy⟩

/-- Embedding of `register_single_band`.  Oracles: `featDetect` is
`len(ref_pts) > 0` after `detect_and_match_features` (false when too few
keypoints or too few raw matches), `featEst` is the result of
`estimate_affine_transform` on those points, `slicRes` is the result of
`register_slic_based`, and `phase` is `(shift_y, shift_x)` from
`estimate_phase_correlation_shift` (which never raises).  Returns the
chosen transform matrix and the reported method. -/
def register_single_band (mode : String) (featDetect : Bool)
    (featEst : Option Mat23) (slicRes : Option Mat23) (phase : ℚ × ℚ) :
    Mat23 × RegMethod :=
  let s0 : Option Mat23 × RegMethod := (none, .stillNone)
  let s1 : Option Mat23 × RegMethod :=
    if (mode = "features" ∨ mode = "hybrid") ∧ featDetect then
      match featEst with
      | some M => (some M, .features)
      | none => s0
    else s0
  let s2 : Option Mat23 × RegMethod :=
    if s1.1 = none ∧ (mode = "slic" ∨ mode = "hybrid") then
      match slicRes with
      | some M => (some M, .slic)
      | none => s1
    else s1
  match s2 with
  | (some M, m) => (M, m)
  | (none, _) => (phaseMat phase.1 phase.2, .phaseShift phase.1 phase.2)

/-! ## Band preprocessing
(`src/core/image_registration.py` lines 83-110,
`src/core/dual_image_registration.py` lines 51-109)

A 2-D intensity grid is modelled as the flattened list of its pixel
values; the elementwise numpy arithmetic of the source acts pointwise. -/

/-- Minimum pixel value (`image.min()`; numpy raises on an empty array,
the `[]` case is an arbitrary default never reached under the claims'
non-empty hypotheses). -/
def gridMin : List ℚ → ℚ
  | [] => 0
  | x :: xs => xs.foldl min x

/-- Maximum pixel value (`image.max()`). -/
def gridMax : List ℚ → ℚ
  | [] => 0
  | x :: xs => xs.foldl max x

/-- The literal `1e-8` added to the normalization denominator. -/
def normEps : ℚ := 1 / 10 ^ 8

/-- Normalization denominator `image.max() - image.min() + 1e-8`. -/
def normDenom (img : List ℚ) : ℚ := gridMax img - gridMin img + normEps

/-- The shared normalization step
`(image - image.min()) / (image.max() - image.min() + 1e-8)` used by both
`preprocess_image` and `load_and_preprocess_image`. -/
def normalize_image (img : List ℚ) : List ℚ :=
  img.map fun x => (x - gridMin img) / normDenom img

/-- Conversion `(img * 255).astype(np.uint8)` (truncation; the inputs lie
in `[0, 1]`, so no wraparound occurs). -/
def toUint8 (img : List ℚ) : List ℤ := img.map fun x => ⌊x * 255⌋

/-- Embedding of `ImageRegistration.preprocess_image`.  The CLAHE
primitive is the oracle `clahe` (`none` = raised exception) and the
gaussian filter is the oracle `gauss`; the result is `none` exactly when
an exception escapes `preprocess_image` — the contrast-enhancement block
has no exception handler in the source. -/
def preprocess_image (image : List ℚ) (enhance_contrast : Bool)
    (clahe : List ℤ → Option (List ℤ)) (sigma : ℚ)
    (gauss : List ℚ → List ℚ) : Option (List ℚ) :=
  let imgNorm := normalize_image image
  let afterEnhance : Option (List ℚ) :=
    if enhance_contrast then
      match clahe (toUint8 imgNorm) with
      | none => none
      | some enhanced => some (enhanced.map fun z => (z : ℚ) / 255)
    else some imgNorm
  afterEnhance.map fun g => if 0 < sigma then gauss g else g

/-- Embedding of `DualImageRegistration._enhance_contrast`: apply CLAHE
to the uint8 image; on any exception fall back to scikit-image's
`equalize_adapthist` applied to the (unenhanced) input — the fallback is
a different enhancer, not the identity. -/
def enhance_contrast_dual (image : List ℚ)
    (clahe : List ℤ → Option (List ℤ))
    (equalize_adapthist : List ℚ → List ℚ) : List ℚ :=
  match clahe (toUint8 image) with
  | some enhanced => enhanced.map fun z => (z : ℚ) / 255
  | none => equalize_adapthist image

/-! ## Scale-factor estimation
(`src/core/dual_image_registration.py`, lines 111-169) -/

/-- Initial scale estimate: the mean of the height and width ratios. -/
def initialScale (hs ws hl wl : Nat) : ℚ :=
  ((hl : ℚ) / (hs : ℚ) + (wl : ℚ) / (ws : ℚ)) / 2

/-- The candidate scales `np.linspace(initial * 0.7, initial * 1.3, 10)`. -/
def scaleCandidates (initial : ℚ) : List ℚ :=
  (List.range 10).map fun i =>
    (7 / 10) * initial + (i : ℚ) * ((13 / 10) * initial - (7 / 10) * initial) / 9

/-- Evaluation of one candidate scale: `none` when the candidate is
skipped (resized image larger than the large image), when the center
region's shape cannot match the resized shape (odd resized dimension:
the region spans `2 * (n // 2)` pixels), or when the external
`np.corrcoef` computation raises or returns NaN; otherwise the finite
correlation score, supplied by the oracle `corrOf`. -/
def scoredValue (hs ws hl wl : Nat) (corrOf : ℚ → Option ℚ) (s : ℚ) : Option ℚ :=
  if (⌊(hs : ℚ) * s⌋).toNat > hl ∨ (⌊(ws : ℚ) * s⌋).toNat > wl then none
  else if (⌊(hs : ℚ) * s⌋).toNat % 2 = 1 ∨ (⌊(ws : ℚ) * s⌋).toNat % 2 = 1 then none
  else corrOf s

/-- One step of the best-candidate fold: keep the candidate only when its
score strictly exceeds the best so far (`best_score` starts at `0`). -/
def scaleStep (score : ℚ → Option ℚ) (best : ℚ × ℚ) (s : ℚ) : ℚ × ℚ :=
  match score s with
  | none => best
  | some c => if best.2 < c then (s, c) else best

/-- Embedding of `DualImageRegistration.estimate_scale_factor` for images
of shapes `hs × ws` (small) and `hl × wl` (large); `estimation` is the
`scale_factor_estimation` flag. -/
def estimate_scale_factor (hs ws hl wl : Nat) (estimation : Bool)
    (corrOf : ℚ → Option ℚ) : ℚ :=
  let initial := initialScale hs ws hl wl
  if !estimation then initial
  else
    ((scaleCandidates initial).foldl
      (scaleStep (scoredValue hs ws hl wl corrOf)) (initial, 0)).1

/-! ## Resume controller (`src/utils/utils.py`, lines 248-297)

Filenames are modelled as `List Char`.  `find_processed_groups` globs
`*_registered.tif` in the output directory (Python's `glob` does not
match names starting with a dot) and extracts the base name with the
anchored greedy regex `(.+)_registered\.tif$` (the group must be
non-empty and, since `.` does not match a newline, newline-free). -/

/-- Filenames in the output directory. -/
abbrev FName := List Char

/-- The characters of the derived-name suffix `"_registered.tif"`. -/
def regSuffix : FName := "_registered.tif".data

/-- The expected output name `f"{base_name}_registered.tif"` built by
`create_output_filename`. -/
def registeredName (base : FName) : FName := base ++ regSuffix

/-- Glob match for the pattern `*_registered.tif`: any suffix-matching
name whose first character is not a dot. -/
def globRegistered (F : FName) : Bool :=
  decide (F.head? ≠ some '.') && regSuffix.isSuffixOf F

/-- Base-name extraction via `re.match(r'(.+)_registered\.tif$', f)`:
the greedy group is everything before the final suffix; the match fails
when that group is empty or contains a newline. -/
def stripRegistered (F : FName) : Option FName :=
  if regSuffix.length < F.length ∧ F.drop (F.length - regSuffix.length) = regSuffix ∧
      ¬ '\n' ∈ F.take (F.length - regSuffix.length)
  then some (F.take (F.length - regSuffix.length)) else none

/-- Embedding of `find_processed_groups`: the base names of all
`*_registered.tif` files in the output directory (`files` is the
directory listing). -/
def find_processed_groups (files : List FName) : List FName :=
  (files.filter globRegistered).filterMap stripRegistered

/-- Embedding of `get_resume_info`: partition the discovered groups
(a band-group is its base name paired with its band paths) into
`(to_process, already_done)` by membership of the base name in the
processed set. -/
def get_resume_info (input_groups : List (FName × List FName))
    (files : List FName) :
    List (FName × List FName) × List (FName × List FName) :=
  let processed := find_processed_groups files
  (input_groups.filter fun g => !decide (g.1 ∈ processed),
   input_groups.filter fun g => decide (g.1 ∈ processed))

/-! ## Theorems -/

/-- C1: for every original world affine transform and every 2x3
registration matrix handed to `update_transform_for_registration`, when
both are present and the registration matrix is invertible the returned
transform `B` satisfies `B ∘ registration = original` — i.e. `B` is
`original ∘ registration⁻¹`; and whenever either input is `None`, or the
registration's affine map is degenerate (its inversion raises), the
original transform is returned unchanged and the function still returns
(no exception escapes). -/
theorem C1_update_transform_composition (A : AffineQ) (R : Mat23) :
    update_transform_for_registration none (some R) = none ∧
    update_transform_for_registration (some A) none = some A ∧
    (affineDet (affineOfMat R) = 0 →
      update_transform_for_registration (some A) (some R) = some A) ∧
    (affineDet (affineOfMat R) ≠ 0 →
      ∃ B, update_transform_for_registration (some A) (some R) = some B ∧
        ∀ p : ℚ × ℚ,
          affineApply B (affineApply (affineOfMat R) p) = affineApply A p) := by
  refine ⟨rfl, rfl, ?_, ?_⟩
  · intro hdeg
    simp [update_transform_for_registration, affineInv, hdeg]
  · intro hdet
    have hinv : affineInv (affineOfMat R) ≠ none := by
      simp [affineInv, hdet]
    obtain ⟨Rinv, hR⟩ := Option.ne_none_iff_exists'.mp hinv
    refine ⟨affineMul A Rinv, ?_, ?_⟩
    · simp [update_transform_for_registration, hR]
    · intro p
      rw [affineApply_mul, affineInv_apply_apply (affineOfMat R) Rinv hR p]

/-- Witness for C1 at a concrete invertible registration matrix. -/
theorem C1_update_transform_composition_witness :
    affineDet (affineOfMat ⟨2, 0, 3, 0, 2, 5⟩) ≠ 0 ∧
    ∃ B, update_transform_for_registration (some ⟨1, 0, 10, 0, 1, 20⟩)
          (some ⟨2, 0, 3, 0, 2, 5⟩) = some B ∧
        ∀ p : ℚ × ℚ,
          affineApply B (affineApply (affineOfMat ⟨2, 0, 3, 0, 2, 5⟩) p) =
            affineApply ⟨1, 0, 10, 0, 1, 20⟩ p := by
  have hdet : affineDet (affineOfMat ⟨2, 0, 3, 0, 2, 5⟩) ≠ 0 := by
    norm_num [affineDet, affineOfMat]
  exact ⟨hdet,
    (C1_update_transform_composition ⟨1, 0, 10, 0, 1, 20⟩ ⟨2, 0, 3, 0, 2, 5⟩).2.2.2 hdet⟩

/-- C2: the registration-matrices list returned by `register_bands` is
`None` at every index (reference and estimated bands alike, whatever the
estimator produced), and consequently `save_multiband_with_metadata`
never invokes `update_transform_for_registration`: the geotransform
written to the output profile is exactly the reference band's original
transform. -/
theorem C2_matrices_all_none_transform_unchanged (n refIdx : Nat)
    (est : Nat → Option Mat23) (t : Option AffineQ) :
    ((register_bands_matrices n refIdx est).all fun m => m = none) ∧
    save_output_transform t (register_bands_matrices n refIdx est) = (t, false) := by
  constructor
  · simp only [register_bands_matrices, List.all_eq_true, List.mem_map]
    rintro m ⟨i, -, rfl⟩
    by_cases h : i = refIdx <;>
      simp [h, referenceMatrixEntry, estimatedMatrixEntry]
  · cases t with
    | none => rfl
    | some A =>
      cases n with
      | zero => rfl
      | succ m =>
        simp only [register_bands_matrices, List.range_succ_eq_map, List.map_cons]
        by_cases h0 : (0 : Nat) = refIdx
        · simp [h0, referenceMatrixEntry, save_output_transform]
        · simp [h0, estimatedMatrixEntry, save_output_transform]

/-- Unfolding of one consistency check into its propositional form. -/
theorem bandConsistent_iff (reference m : GeoMeta) :
    bandConsistent reference m = true ↔
      (m.crs = reference.crs ∧ m.width = reference.width ∧
       m.height = reference.height ∧
       ∀ t r, m.transform = some t → reference.transform = some r →
         ∀ q ∈ t.coeffs.zip r.coeffs, |q.1 - q.2| ≤ transformTol) := by
  cases hm : m.transform <;> cases hr : reference.transform <;>
    simp [bandConsistent, hm, hr, transformsClose, List.all_eq_true, and_assoc]

/-- Validation of a non-empty list checks every later band against the
head. -/
theorem validate_cons_iff (reference : GeoMeta) (rest : List GeoMeta) :
    validate_spatial_consistency (reference :: rest) = true ↔
      ∀ m ∈ rest, bandConsistent reference m = true := by
  simp [validate_spatial_consistency, List.all_eq_true]

/-- C9: `validate_spatial_consistency` returns `False` on an empty list,
and on a non-empty list it succeeds exactly when every subsequent band
agrees with the first element of the list (index 0) on CRS, width and
height, the per-coefficient transform comparison (tolerance 1e-10) being
imposed only when both transforms are present — it is skipped entirely
when either is `None`. -/
theorem C9_validate_first_element_semantics :
    validate_spatial_consistency [] = false ∧
    ∀ (reference : GeoMeta) (rest : List GeoMeta),
      (validate_spatial_consistency (reference :: rest) = true ↔
        ∀ m ∈ rest,
          m.crs = reference.crs ∧ m.width = reference.width ∧
          m.height = reference.height ∧
          ∀ t r, m.transform = some t → reference.transform = some r →
            ∀ q ∈ t.coeffs.zip r.coeffs, |q.1 - q.2| ≤ transformTol) := by
  refine ⟨rfl, fun reference rest => ?_⟩
  rw [validate_cons_iff]
  exact ⟨fun h m hm => (bandConsistent_iff reference m).mp (h m hm),
    fun h m hm => (bandConsistent_iff reference m).mpr (h m hm)⟩

/-- Witness for C9: a two-band list whose second band equals the first on
all checked fields validates successfully. -/
theorem C9_validate_first_element_semantics_witness :
    validate_spatial_consistency
      [⟨some 1, some 2, some 3, none⟩, ⟨some 1, some 2, some 3, none⟩] = true := by
  refine (C9_validate_first_element_semantics.2 ⟨some 1, some 2, some 3, none⟩
    [⟨some 1, some 2, some 3, none⟩]).mpr ?_
  intro m hm
  rw [List.mem_singleton] at hm
  subst hm
  exact ⟨rfl, rfl, rfl, fun t r ht hr => by simp at ht⟩

/-- C3 counterexample: a complete 5-band group (so `validate_image_group`
passes) whose fifth band has a different CRS.
`validate_spatial_consistency` returns `False`, yet the embedded
`register_bands` / `process_image_group` control flow (which discards the
validation result at `src/core/image_registration.py` line 413) still
processes the group and produces output (`true`), so processing is not a
hard failure as the claim states. -/
theorem C3_counterexample :
    validate_spatial_consistency
      [⟨some 1, some 10, some 10, none⟩, ⟨some 1, some 10, some 10, none⟩,
       ⟨some 1, some 10, some 10, none⟩, ⟨some 1, some 10, some 10, none⟩,
       ⟨some 2, some 10, some 10, none⟩] = false ∧
    process_image_group true true
      [⟨some 1, some 10, some 10, none⟩, ⟨some 1, some 10, some 10, none⟩,
       ⟨some 1, some 10, some 10, none⟩, ⟨some 1, some 10, some 10, none⟩,
       ⟨some 2, some 10, some 10, none⟩]
      0 (fun _ => none) = true := by
  exact ⟨rfl, rfl⟩

/-- C3 (amended): in metadata-preserving mode, for a complete 5-band
group, if any band's CRS, dimensions or transform coefficients (beyond
1e-10) differ from the first band's, then `validate_spatial_consistency`
returns `False` (and a warning naming the offending band is logged), but
`register_bands` ignores the validation result: processing continues and
the group still produces output — the inconsistency is advisory, not
fatal. -/
theorem C3_validation_advisory (reference : GeoMeta) (rest : List GeoMeta)
    (refIdx : Nat) (est : Nat → Option Mat23) (hlen : rest.length = 4)
    (h : ∃ m ∈ rest, bandConsistent reference m = false) :
    validate_spatial_consistency (reference :: rest) = false ∧
    process_image_group true true (reference :: rest) refIdx est = true := by
  constructor
  · obtain ⟨m, hm, hbad⟩ := h
    have hnot : ¬ validate_spatial_consistency (reference :: rest) = true := by
      rw [validate_cons_iff]
      intro hall
      rw [hall m hm] at hbad
      exact absurd hbad (by simp)
    simpa using hnot
  · have h5 : (reference :: rest).length = 5 := by simp [hlen]
    simp [process_image_group, register_bands_model, validate_image_group, h5]

/-- Witness for the amended C3 at a concrete 5-band group with a width
mismatch in the second band. -/
theorem C3_validation_advisory_witness :
    validate_spatial_consistency
      [⟨some 1, some 10, some 10, none⟩, ⟨some 1, some 11, some 10, none⟩,
       ⟨some 1, some 10, some 10, none⟩, ⟨some 1, some 10, some 10, none⟩,
       ⟨some 1, some 10, some 10, none⟩] = false ∧
    process_image_group true true
      [⟨some 1, some 10, some 10, none⟩, ⟨some 1, some 11, some 10, none⟩,
       ⟨some 1, some 10, some 10, none⟩, ⟨some 1, some 10, some 10, none⟩,
       ⟨some 1, some 10, some 10, none⟩]
      1 (fun _ => none) = true := by
  exact C3_validation_advisory ⟨some 1, some 10, some 10, none⟩
    [⟨some 1, some 11, some 10, none⟩, ⟨some 1, some 10, some 10, none⟩,
     ⟨some 1, some 10, some 10, none⟩, ⟨some 1, some 10, some 10, none⟩]
    1 (fun _ => none) rfl
    ⟨⟨some 1, some 11, some 10, none⟩, List.mem_cons_self _ _, rfl⟩

/-- C4: in `hybrid` mode the strategies are attempted in the order
features, slic, phase correlation, and the first non-`None` transform
terminates the search: an accepted feature estimate is reported as
`features`; whenever feature estimation yields no transform (no detected
points or a rejected fit) the reported method is never `features`, an
accepted slic estimate is then reported as `slic`, and if slic also
yields `None` the translation-only phase-shift transform is reported
with the `phase_shift` tag; the phase fallback is unconditional, so for
every mode the reported method is never the initial "none". -/
theorem C4_hybrid_fallback_order (featDetect : Bool)
    (featEst slicRes : Option Mat23) (phase : ℚ × ℚ) :
    (∀ M, featDetect = true → featEst = some M →
      register_single_band "hybrid" featDetect featEst slicRes phase =
        (M, RegMethod.features)) ∧
    ((featDetect = false ∨ featEst = none) →
      (register_single_band "hybrid" featDetect featEst slicRes phase).2 ≠
          RegMethod.features ∧
      (∀ M, slicRes = some M →
        register_single_band "hybrid" featDetect featEst slicRes phase =
          (M, RegMethod.slic)) ∧
      (slicRes = none →
        register_single_band "hybrid" featDetect featEst slicRes phase =
          (phaseMat phase.1 phase.2, RegMethod.phaseShift phase.1 phase.2))) ∧
    (∀ mode : String,
      (register_single_band mode featDetect featEst slicRes phase).2 ≠
        RegMethod.stillNone) := by
  refine ⟨?_, ?_, ?_⟩
  · rintro M rfl rfl
    simp [register_single_band]
  · intro hfail
    rcases hfail with h | h
    · subst h
      cases hs : slicRes <;> simp [register_single_band, hs]
    · subst h
      cases featDetect <;> cases hs : slicRes <;>
        simp [register_single_band, hs]
  · intro mode
    by_cases hc : ((mode = "features" ∨ mode = "hybrid") ∧ featDetect = true)
    · cases he : featEst <;> cases hs : slicRes <;>
        by_cases hc2 : (mode = "slic" ∨ mode = "hybrid") <;>
          simp [register_single_band, hc, he, hs, hc2]
    · cases hs : slicRes <;>
        by_cases hc2 : (mode = "slic" ∨ mode = "hybrid") <;>
          simp [register_single_band, hc, hs, hc2]

/-- Witness for C4: a failed feature detection with a successful slic
estimate is reported as `slic`. -/
theorem C4_hybrid_fallback_order_witness :
    register_single_band "hybrid" false none (some ⟨1, 0, 4, 0, 1, 7⟩) (0, 0) =
      (⟨1, 0, 4, 0, 1, 7⟩, RegMethod.slic) := by
  exact ((C4_hybrid_fallback_order false none (some ⟨1, 0, 4, 0, 1, 7⟩)
    (0, 0)).2.1 (Or.inl rfl)).2.1 ⟨1, 0, 4, 0, 1, 7⟩ rfl

/-- C5: both robust affine estimators return `None` whenever either
point set has fewer than 6 points, and never return a matrix when the
solver's inlier mask is absent or marks fewer than 6 correspondences as
inliers, even if the solver produced a numeric matrix. -/
theorem C5_estimators_reject_unreliable_fits (nRef nTarget : Nat)
    (solver : Option (Option Mat23 × Option (List Bool))) :
    ((nRef < 6 ∨ nTarget < 6) →
      estimate_affine_transform nRef nTarget solver = none ∧
      estimate_transform_robust nRef nTarget solver = none) ∧
    (∀ M : Option Mat23, solver = some (M, none) →
      estimate_affine_transform nRef nTarget solver = none ∧
      estimate_transform_robust nRef nTarget solver = none) ∧
    (∀ (M : Option Mat23) (mask : List Bool),
      solver = some (M, some mask) → inlierCount mask < 6 →
      estimate_affine_transform nRef nTarget solver = none ∧
      estimate_transform_robust nRef nTarget solver = none) := by
  refine ⟨?_, ?_, ?_⟩
  · intro hfew
    simp [estimate_affine_transform, estimate_transform_robust, hfew]
  · rintro M rfl
    simp [estimate_affine_transform, estimate_transform_robust]
  · rintro M mask rfl hcount
    simp [estimate_affine_transform, estimate_transform_robust,
      Nat.not_le.mpr hcount]

/-- Witness for C5: a solver that reports a numeric matrix with only 5
inlier correspondences is rejected by both estimators. -/
theorem C5_estimators_reject_unreliable_fits_witness :
    estimate_affine_transform 10 10
      (some (some ⟨1, 0, 0, 0, 1, 0⟩, some [true, true, true, true, true, false])) =
      none ∧
    estimate_transform_robust 10 10
      (some (some ⟨1, 0, 0, 0, 1, 0⟩, some [true, true, true, true, true, false])) =
      none := by
  exact (C5_estimators_reject_unreliable_fits 10 10 _).2.2
    (some ⟨1, 0, 0, 0, 1, 0⟩) [true, true, true, true, true, false] rfl
    (by decide)

/-- C6 counterexample: the multiband `preprocess_image` has no exception
handler around its contrast-enhancement block, so when CLAHE raises (the
oracle returns `none`) the exception propagates out of the preprocessor
(result `none`) instead of the unenhanced band value being returned. -/
theorem C6_counterexample :
    preprocess_image [0, 2] true (fun _ => none) 0 id = none := rfl

/-- C6 (amended): a contrast-enhancement failure is not replaced by the
unenhanced value in either preprocessor — the multiband
`preprocess_image` lets the exception propagate (no handler), while the
dual-image `_enhance_contrast` catches it and instead applies
scikit-image adaptive histogram equalization to the input. -/
theorem C6_enhancement_failure_behavior (image : List ℚ) (sigma : ℚ)
    (gauss equalize : List ℚ → List ℚ) (claheFail : List ℤ → Option (List ℤ))
    (hfail : ∀ g, claheFail g = none) :
    preprocess_image image true claheFail sigma gauss = none ∧
    enhance_contrast_dual image claheFail equalize = equalize image := by
  constructor
  · simp [preprocess_image, hfail]
  · simp [enhance_contrast_dual, hfail]

/-- Witness for the amended C6 at a concrete band and failing CLAHE. -/
theorem C6_enhancement_failure_behavior_witness :
    preprocess_image [0, 1] true (fun _ => none) 0 id = none ∧
    enhance_contrast_dual [0, 1] (fun _ => none) id = id [0, 1] := by
  exact C6_enhancement_failure_behavior [0, 1] 0 id id (fun _ => none)
    (fun _ => rfl)

/-- Folding `min` over a list never exceeds the initial accumulator. -/
theorem foldl_min_le_init (xs : List ℚ) : ∀ a : ℚ, xs.foldl min a ≤ a := by
  induction xs with
  | nil => intro a; simp
  | cons x xs ih =>
    intro a
    calc (x :: xs).foldl min a = xs.foldl min (min a x) := rfl
    _ ≤ min a x := ih (min a x)
    _ ≤ a := min_le_left a x

/-- Folding `min` over a list is a lower bound of its members. -/
theorem foldl_min_le_mem (xs : List ℚ) :
    ∀ (a b : ℚ), b ∈ xs → xs.foldl min a ≤ b := by
  induction xs with
  | nil => intro a b hb; simp at hb
  | cons x xs ih =>
    intro a b hb
    rcases List.mem_cons.mp hb with rfl | hb
    · calc (b :: xs).foldl min a = xs.foldl min (min a b) := rfl
      _ ≤ min a b := foldl_min_le_init xs (min a b)
      _ ≤ b := min_le_right a b
    · exact ih (min a x) b hb

/-- Folding `max` over a list is at least the initial accumulator. -/
theorem init_le_foldl_max (xs : List ℚ) : ∀ a : ℚ, a ≤ xs.foldl max a := by
  induction xs with
  | nil => intro a; simp
  | cons x xs ih =>
    intro a
    calc a ≤ max a x := le_max_left a x
    _ ≤ xs.foldl max (max a x) := ih (max a x)
    _ = (x :: xs).foldl max a := rfl

/-- Folding `max` over a list is an upper bound of its members. -/
theorem mem_le_foldl_max (xs : List ℚ) :
    ∀ (a b : ℚ), b ∈ xs → b ≤ xs.foldl max a := by
  induction xs with
  | nil => intro a b hb; simp at hb
  | cons x xs ih =>
    intro a b hb
    rcases List.mem_cons.mp hb with rfl | hb
    · calc b ≤ max a b := le_max_right a b
      _ ≤ xs.foldl max (max a b) := init_le_foldl_max xs (max a b)
      _ = (b :: xs).foldl max a := rfl
    · exact ih (max a x) b hb

/-- Folding `min` over a list yields the accumulator or a member. -/
theorem foldl_min_mem (xs : List ℚ) :
    ∀ a : ℚ, xs.foldl min a ∈ a :: xs := by
  induction xs with
  | nil => intro a; simp
  | cons x xs ih =>
    intro a
    have h := ih (min a x)
    rcases List.mem_cons.mp h with h | h
    · rcases min_choice a x with hc | hc <;> rw [show (x :: xs).foldl min a
        = xs.foldl min (min a x) from rfl, h, hc]
      · exact List.mem_cons_self a (x :: xs)
      · exact List.mem_cons_of_mem a (List.mem_cons_self x xs)
    · exact List.mem_cons_of_mem a (List.mem_cons_of_mem x h)

/-- The minimum of a non-empty grid is one of its pixels. -/
theorem gridMin_mem (img : List ℚ) (h : img ≠ []) : gridMin img ∈ img := by
  cases img with
  | nil => exact absurd rfl h
  | cons x xs => exact foldl_min_mem xs x

/-- The minimum of a grid bounds every pixel from below. -/
theorem gridMin_le (img : List ℚ) (x : ℚ) (hx : x ∈ img) : gridMin img ≤ x := by
  cases img with
  | nil => simp at hx
  | cons y ys =>
    rcases List.mem_cons.mp hx with rfl | hx
    · exact foldl_min_le_init ys x
    · exact foldl_min_le_mem ys y x hx

/-- Every pixel of a grid is bounded above by its maximum. -/
theorem le_gridMax (img : List ℚ) (x : ℚ) (hx : x ∈ img) : x ≤ gridMax img := by
  cases img with
  | nil => simp at hx
  | cons y ys =>
    rcases List.mem_cons.mp hx with rfl | hx
    · exact init_le_foldl_max ys x
    · exact mem_le_foldl_max ys y x hx

/-- C10: for every non-empty grid the normalization step is total — the
denominator `max - min + 1e-8` is strictly positive — and every
normalized value lies in `[0, 1]`; a constant grid normalizes to all
zeros. -/
theorem C10_normalization_total_and_bounded (img : List ℚ) (h : img ≠ []) :
    0 < normDenom img ∧
    (∀ y ∈ normalize_image img, 0 ≤ y ∧ y ≤ 1) ∧
    ((∀ x ∈ img, ∀ x' ∈ img, x = x') → ∀ y ∈ normalize_image img, y = 0) := by
  have hmem := gridMin_mem img h
  have hle : gridMin img ≤ gridMax img := le_gridMax img (gridMin img) hmem
  have heps : (0 : ℚ) < normEps := by norm_num [normEps]
  have hpos : 0 < normDenom img := by
    have : (0 : ℚ) ≤ gridMax img - gridMin img := by linarith
    unfold normDenom
    linarith
  refine ⟨hpos, ?_, ?_⟩
  · intro y hy
    obtain ⟨x, hx, rfl⟩ := List.mem_map.mp hy
    constructor
    · exact div_nonneg (by linarith [gridMin_le img x hx]) (le_of_lt hpos)
    · rw [div_le_one hpos]
      have := le_gridMax img x hx
      unfold normDenom
      linarith
  · intro hconst y hy
    obtain ⟨x, hx, rfl⟩ := List.mem_map.mp hy
    have : x = gridMin img := hconst x hx (gridMin img) hmem
    rw [this, sub_self, zero_div]

/-- Witness for C10 at a concrete two-pixel grid. -/
theorem C10_normalization_total_and_bounded_witness :
    0 < normDenom [3, 5] ∧ (∀ y ∈ normalize_image [3, 5], 0 ≤ y ∧ y ≤ 1) := by
  have h := C10_normalization_total_and_bounded [3, 5] (by simp)
  exact ⟨h.1, h.2.1⟩

/-- The ten candidate scales, written out. -/
theorem scaleCandidates_explicit (i : ℚ) :
    scaleCandidates i = [(7 / 10) * i, (23 / 30) * i, (5 / 6) * i, (9 / 10) * i,
      (29 / 30) * i, (31 / 30) * i, (11 / 10) * i, (7 / 6) * i, (37 / 30) * i,
      (13 / 10) * i] := by
  rw [scaleCandidates, show List.range 10 = [0, 1, 2, 3, 4, 5, 6, 7, 8, 9] from rfl]
  simp only [List.map, List.cons.injEq, and_true]
  refine ⟨?_, ?_, ?_, ?_, ?_, ?_, ?_, ?_, ?_, ?_⟩ <;> (push_cast; ring)

/-- A candidate whose correlation oracle yields nothing is never scored. -/
theorem scoredValue_none_of_corr_none (hs ws hl wl : Nat)
    (corrOf : ℚ → Option ℚ) (s : ℚ) (h : corrOf s = none) :
    scoredValue hs ws hl wl corrOf s = none := by
  unfold scoredValue
  split_ifs <;> simp [h]

/-- Invariant of the best-candidate fold: the best score never
decreases, the final best is the initial pair or a scored member that
strictly improved on it, and the final best score dominates every scored
member. -/
theorem foldl_scaleStep_spec (score : ℚ → Option ℚ) (l : List ℚ) :
    ∀ b : ℚ × ℚ,
      b.2 ≤ (l.foldl (scaleStep score) b).2 ∧
      (l.foldl (scaleStep score) b = b ∨
        (b.2 < (l.foldl (scaleStep score) b).2 ∧
         (l.foldl (scaleStep score) b).1 ∈ l ∧
         score (l.foldl (scaleStep score) b).1 =
           some (l.foldl (scaleStep score) b).2)) ∧
      ∀ s ∈ l, ∀ c, score s = some c → c ≤ (l.foldl (scaleStep score) b).2 := by
  induction l with
  | nil =>
    intro b
    exact ⟨le_refl _, Or.inl rfl, by simp⟩
  | cons x xs ih =>
    intro b
    have hfold : (x :: xs).foldl (scaleStep score) b =
        xs.foldl (scaleStep score) (scaleStep score b x) := rfl
    obtain ⟨ih1, ih2, ih3⟩ := ih (scaleStep score b x)
    have hstep_le : b.2 ≤ (scaleStep score b x).2 := by
      unfold scaleStep
      cases hx : score x with
      | none => exact le_refl _
      | some c =>
        by_cases hlt : b.2 < c
        · simp [hlt]
          exact le_of_lt hlt
        · simp [hlt]
    refine ⟨hfold ▸ le_trans hstep_le ih1, ?_, ?_⟩
    · rw [hfold]
      rcases ih2 with heq | ⟨hlt, hmem, hsc⟩
      · rw [heq]
        unfold scaleStep
        cases hx : score x with
        | none => exact Or.inl rfl
        | some c =>
          by_cases hlt : b.2 < c
          · refine Or.inr ⟨by simp [hlt], ?_, ?_⟩
            · simp [hlt]
            · simp [hlt, hx]
          · simp [hlt]
      · exact Or.inr ⟨lt_of_le_of_lt hstep_le hlt,
          List.mem_cons_of_mem x hmem, hsc⟩
    · intro s hs c hc
      rw [hfold]
      rcases List.mem_cons.mp hs with rfl | hs
      · refine le_trans ?_ ih1
        unfold scaleStep
        rw [hc]
        by_cases hlt : b.2 < c
        · simp [hlt]
        · simp [hlt]
          exact le_of_not_lt hlt
      · exact ih3 s hs c hc

/-- C7 counterexample: with a 10x10 small image and a 20x20 large image
the initial ratio estimate is 2 and the first candidate scale 7/5 is the
unique candidate with a finite correlation score (-1/2).  The claim says
the candidate with the highest finite score (7/5) is returned, but the
source keeps a candidate only when its score strictly exceeds the
running best initialized to 0, so the initial estimate 2 is returned
instead. -/
theorem C7_counterexample :
    estimate_scale_factor 10 10 20 20 true
      (fun s => if s = 7 / 5 then some (-(1 / 2)) else none) = 2 ∧
    (scaleCandidates (initialScale 10 10 20 20)).filter
      (fun s => (scoredValue 10 10 20 20
        (fun s' => if s' = 7 / 5 then some (-(1 / 2)) else none) s).isSome) =
      [7 / 5] ∧
    scoredValue 10 10 20 20
      (fun s' => if s' = 7 / 5 then some (-(1 / 2)) else none) (7 / 5) =
      some (-(1 / 2)) ∧
    (7 / 5 : ℚ) ≠ 2 := by
  have hinit : initialScale 10 10 20 20 = 2 := by
    norm_num [initialScale]
  have hcands : scaleCandidates (initialScale 10 10 20 20) =
      [7 / 5, 23 / 15, 5 / 3, 9 / 5, 29 / 15, 31 / 15, 11 / 5, 7 / 3, 37 / 15,
        13 / 5] := by
    rw [hinit, scaleCandidates_explicit]
    norm_num
  have h0 : scoredValue 10 10 20 20
      (fun s' => if s' = 7 / 5 then some (-(1 / 2)) else none) (7 / 5) =
      some (-(1 / 2)) := by
    have hfloor : (⌊((10 : ℕ) : ℚ) * (7 / 5)⌋).toNat = 14 := by
      rw [show ((10 : ℕ) : ℚ) * (7 / 5) = 14 by norm_num,
        show ⌊(14 : ℚ)⌋ = 14 by norm_num]
      rfl
    simp only [scoredValue, hfloor]
    norm_num
  have hnone : ∀ s : ℚ, s ≠ 7 / 5 →
      scoredValue 10 10 20 20
        (fun s' => if s' = 7 / 5 then some (-(1 / 2)) else none) s = none := by
    intro s hs
    exact scoredValue_none_of_corr_none 10 10 20 20 _ s (if_neg hs)
  have h1 := hnone (23 / 15) (by norm_num)
  have h2 := hnone (5 / 3) (by norm_num)
  have h3 := hnone (9 / 5) (by norm_num)
  have h4 := hnone (29 / 15) (by norm_num)
  have h5 := hnone (31 / 15) (by norm_num)
  have h6 := hnone (11 / 5) (by norm_num)
  have h7 := hnone (7 / 3) (by norm_num)
  have h8 := hnone (37 / 15) (by norm_num)
  have h9 := hnone (13 / 5) (by norm_num)
  refine ⟨?_, ?_, h0, by norm_num⟩
  · show (if !true then initialScale 10 10 20 20
      else ((scaleCandidates (initialScale 10 10 20 20)).foldl
        (scaleStep (scoredValue 10 10 20 20
          (fun s => if s = 7 / 5 then some (-(1 / 2)) else none))) (initialScale 10 10 20 20, 0)).1) = 2
    rw [Bool.not_true, if_neg (by simp), hcands, hinit]
    simp only [List.foldl]
    rw [show scaleStep (scoredValue 10 10 20 20
        (fun s => if s = 7 / 5 then some (-(1 / 2)) else none)) (2, 0) (7 / 5) =
        (2, 0) by
      unfold scaleStep
      rw [h0]
      norm_num]
    simp only [scaleStep, h1, h2, h3, h4, h5, h6, h7, h8, h9]
  · rw [hcands]
    simp only [List.filter, h0, h1, h2, h3, h4, h5, h6, h7, h8, h9,
      Option.isSome_some, Option.isSome_none]

/-- C7 (amended): `estimate_scale_factor` computes the initial estimate
from the dimension ratios and evaluates exactly 10 candidate scales
spanning ±30% around it (skipping candidates whose resized image
exceeds the large image), scoring candidates by normalized
cross-correlation; it returns the candidate with the highest finite
correlation score *strictly greater than zero* (the running best starts
at score 0), and returns the initial ratio estimate whenever no
candidate yields a finite positive score — in particular also when
finite but non-positive scores exist. -/
theorem C7_scale_search_semantics (hs ws hl wl : Nat)
    (corrOf : ℚ → Option ℚ) :
    (scaleCandidates (initialScale hs ws hl wl)).length = 10 ∧
    (scaleCandidates (initialScale hs ws hl wl)).head? =
      some ((7 / 10) * initialScale hs ws hl wl) ∧
    (scaleCandidates (initialScale hs ws hl wl)).getLast? =
      some ((13 / 10) * initialScale hs ws hl wl) ∧
    ((∀ s ∈ scaleCandidates (initialScale hs ws hl wl), ∀ c,
        scoredValue hs ws hl wl corrOf s = some c → c ≤ 0) →
      estimate_scale_factor hs ws hl wl true corrOf =
        initialScale hs ws hl wl) ∧
    (∀ s0 ∈ scaleCandidates (initialScale hs ws hl wl), ∀ c0,
      scoredValue hs ws hl wl corrOf s0 = some c0 → 0 < c0 →
      ∃ s ∈ scaleCandidates (initialScale hs ws hl wl), ∃ c,
        scoredValue hs ws hl wl corrOf s = some c ∧
        estimate_scale_factor hs ws hl wl true corrOf = s ∧ 0 < c ∧
        ∀ s' ∈ scaleCandidates (initialScale hs ws hl wl), ∀ c',
          scoredValue hs ws hl wl corrOf s' = some c' → c' ≤ c) := by
  have hlen : (scaleCandidates (initialScale hs ws hl wl)).length = 10 := by
    rw [scaleCandidates_explicit]
    rfl
  have hhead : (scaleCandidates (initialScale hs ws hl wl)).head? =
      some ((7 / 10) * initialScale hs ws hl wl) := by
    rw [scaleCandidates_explicit]
    rfl
  have hlast : (scaleCandidates (initialScale hs ws hl wl)).getLast? =
      some ((13 / 10) * initialScale hs ws hl wl) := by
    rw [scaleCandidates_explicit]
    rfl
  have hunfold : estimate_scale_factor hs ws hl wl true corrOf =
      ((scaleCandidates (initialScale hs ws hl wl)).foldl
        (scaleStep (scoredValue hs ws hl wl corrOf))
        (initialScale hs ws hl wl, 0)).1 := by
    rfl
  obtain ⟨hge, hdisj, hdom⟩ := foldl_scaleStep_spec
    (scoredValue hs ws hl wl corrOf)
    (scaleCandidates (initialScale hs ws hl wl))
    (initialScale hs ws hl wl, 0)
  refine ⟨hlen, hhead, hlast, ?_, ?_⟩
  · intro hall
    rcases hdisj with heq | ⟨hlt, hmem, hsc⟩
    · rw [hunfold, heq]
    · exact absurd (hall _ hmem _ hsc) (not_le.mpr hlt)
  · intro s0 hs0 c0 hc0 hpos
    have hr2 : 0 < ((scaleCandidates (initialScale hs ws hl wl)).foldl
        (scaleStep (scoredValue hs ws hl wl corrOf))
        (initialScale hs ws hl wl, 0)).2 :=
      lt_of_lt_of_le hpos (hdom s0 hs0 c0 hc0)
    rcases hdisj with heq | ⟨_, hmem, hsc⟩
    · rw [heq] at hr2
      exact absurd hr2 (by norm_num)
    · exact ⟨_, hmem, _, hsc, hunfold, hr2, hdom⟩

/-- Witness for the amended C7: when every correlation is NaN (oracle
constantly `none`) the initial ratio estimate is returned. -/
theorem C7_scale_search_semantics_witness :
    estimate_scale_factor 10 10 20 20 true (fun _ => none) = 2 := by
  have h := (C7_scale_search_semantics 10 10 20 20 (fun _ => none)).2.2.2.1 ?_
  · rw [h]
    norm_num [initialScale]
  · intro s hs c hc
    rw [scoredValue_none_of_corr_none 10 10 20 20 _ s rfl] at hc
    exact absurd hc (by simp)

/-- Characterization of the base-name extraction: it succeeds exactly on
names of the form `base ++ "_registered.tif"` with a non-empty,
newline-free base. -/
theorem stripRegistered_eq_some_iff (F B : FName) :
    stripRegistered F = some B ↔
      (F = B ++ regSuffix ∧ B ≠ [] ∧ '\n' ∉ B) := by
  unfold stripRegistered
  constructor
  · intro h
    split_ifs at h with hcond
    · obtain ⟨hlen, hdrop, hnl⟩ := hcond
      have hB : F.take (F.length - regSuffix.length) = B := Option.some.inj h
      subst hB
      refine ⟨?_, ?_, hnl⟩
      · conv_lhs => rw [← List.take_append_drop (F.length - regSuffix.length) F]
        rw [hdrop]
      · intro hnil
        have hlentake : (F.take (F.length - regSuffix.length)).length =
            F.length - regSuffix.length := by
          rw [List.length_take]
          exact Nat.min_eq_left (Nat.sub_le _ _)
        rw [hnil] at hlentake
        simp at hlentake
        omega
  · rintro ⟨rfl, hne, hnl⟩
    have hlen : (B ++ regSuffix).length = B.length + regSuffix.length :=
      List.length_append B regSuffix
    have hsub : (B ++ regSuffix).length - regSuffix.length = B.length := by
      omega
    have htake : (B ++ regSuffix).take ((B ++ regSuffix).length - regSuffix.length)
        = B := by
      rw [hsub]
      exact List.take_left B regSuffix
    have hdrop : (B ++ regSuffix).drop ((B ++ regSuffix).length - regSuffix.length)
        = regSuffix := by
      rw [hsub]
      exact List.drop_left B regSuffix
    have hpos : 0 < B.length := List.length_pos.mpr hne
    rw [if_pos ⟨by omega, hdrop, by rw [htake]; exact hnl⟩, htake]

/-- Membership in the processed set unfolded. -/
theorem mem_find_processed_groups (files : List FName) (B : FName) :
    B ∈ find_processed_groups files ↔
      ∃ F ∈ files, globRegistered F = true ∧ stripRegistered F = some B := by
  unfold find_processed_groups
  rw [List.mem_filterMap]
  constructor
  · rintro ⟨F, hF, hstrip⟩
    exact ⟨F, (List.mem_filter.mp hF).1, (List.mem_filter.mp hF).2, hstrip⟩
  · rintro ⟨F, hF, hglob, hstrip⟩
    exact ⟨F, List.mem_filter.mpr ⟨hF, hglob⟩, hstrip⟩

/-- A valid base name is in the processed set exactly when its derived
output file is in the directory listing. -/
theorem base_mem_processed_iff (files : List FName) (B : FName)
    (hne : B ≠ []) (hdot : B.head? ≠ some '.') (hnl : '\n' ∉ B) :
    B ∈ find_processed_groups files ↔ registeredName B ∈ files := by
  rw [mem_find_processed_groups]
  constructor
  · rintro ⟨F, hF, -, hstrip⟩
    obtain ⟨rfl, -, -⟩ := (stripRegistered_eq_some_iff F B).mp hstrip
    exact hF
  · intro hmem
    refine ⟨B ++ regSuffix, hmem, ?_, ?_⟩
    · unfold globRegistered
      have hhead : (B ++ regSuffix).head? = B.head? := by
        cases B with
        | nil => exact absurd rfl hne
        | cons b bs => rfl
      rw [Bool.and_eq_true, decide_eq_true_eq, hhead]
      exact ⟨hdot, List.isSuffixOf_iff_suffix.mpr (List.suffix_append B regSuffix)⟩
    · exact (stripRegistered_eq_some_iff _ B).mpr ⟨rfl, hne, hnl⟩

/-- C8: `get_resume_info` partitions the discovered groups into two
disjoint parts covering all groups; a group whose base name is a valid
discovered name (non-empty, not starting with a dot, newline-free — all
guaranteed for `IMG_<digits>` names) is placed in the already-completed
part exactly when the file `<base>_registered.tif` exists in the output
directory; consequently, when every group's output file already exists
(a second batch run over unchanged directories), no group is scheduled
for processing. -/
theorem C8_resume_partition_semantics (input_groups : List (FName × List FName))
    (files : List FName) :
    (∀ g ∈ input_groups,
      (g ∈ (get_resume_info input_groups files).1 ∨
        g ∈ (get_resume_info input_groups files).2) ∧
      ¬(g ∈ (get_resume_info input_groups files).1 ∧
        g ∈ (get_resume_info input_groups files).2)) ∧
    (∀ g ∈ (get_resume_info input_groups files).1, g ∈ input_groups) ∧
    (∀ g ∈ (get_resume_info input_groups files).2, g ∈ input_groups) ∧
    (∀ g ∈ input_groups, g.1 ≠ [] → g.1.head? ≠ some '.' → '\n' ∉ g.1 →
      (g ∈ (get_resume_info input_groups files).2 ↔
        registeredName g.1 ∈ files)) ∧
    ((∀ g ∈ input_groups, g.1 ≠ [] ∧ g.1.head? ≠ some '.' ∧ '\n' ∉ g.1 ∧
        registeredName g.1 ∈ files) →
      (get_resume_info input_groups files).1 = []) := by
  refine ⟨?_, ?_, ?_, ?_, ?_⟩
  · intro g hg
    constructor
    · by_cases hmem : g.1 ∈ find_processed_groups files
      · exact Or.inr (List.mem_filter.mpr ⟨hg, by simp [hmem]⟩)
      · exact Or.inl (List.mem_filter.mpr ⟨hg, by simp [hmem]⟩)
    · rintro ⟨h1, h2⟩
      have hn := (List.mem_filter.mp h1).2
      have hy := (List.mem_filter.mp h2).2
      simp at hn hy
      exact hn hy
  · intro g hg
    exact (List.mem_filter.mp hg).1
  · intro g hg
    exact (List.mem_filter.mp hg).1
  · intro g hg hne hdot hnl
    rw [← base_mem_processed_iff files g.1 hne hdot hnl]
    constructor
    · intro h
      have := (List.mem_filter.mp h).2
      simpa using this
    · intro h
      exact List.mem_filter.mpr ⟨hg, by simpa using h⟩
  · intro hall
    rw [show (get_resume_info input_groups files).1 =
      input_groups.filter
        (fun g => !decide (g.1 ∈ find_processed_groups files)) from rfl]
    rw [List.filter_eq_nil_iff]
    intro g hg
    obtain ⟨hne, hdot, hnl, hfile⟩ := hall g hg
    have : g.1 ∈ find_processed_groups files :=
      (base_mem_processed_iff files g.1 hne hdot hnl).mpr hfile
    simp [this]

/-- Witness for C8 at a concrete group map and directory listing. -/
theorem C8_resume_partition_semantics_witness :
    (⟨"IMG_0001".data, ["IMG_0001_1.tif".data]⟩ ∈
      (get_resume_info [⟨"IMG_0001".data, ["IMG_0001_1.tif".data]⟩]
        ["IMG_0001_registered.tif".data]).2 ↔
      registeredName "IMG_0001".data ∈ ["IMG_0001_registered.tif".data]) ∧
    (get_resume_info [⟨"IMG_0001".data, ["IMG_0001_1.tif".data]⟩]
      ["IMG_0001_registered.tif".data]).1 = [] := by
  constructor
  · exact (C8_resume_partition_semantics
      [⟨"IMG_0001".data, ["IMG_0001_1.tif".data]⟩]
      ["IMG_0001_registered.tif".data]).2.2.2.1
      ⟨"IMG_0001".data, ["IMG_0001_1.tif".data]⟩ (by simp)
      (by decide) (by decide) (by decide)
  · refine (C8_resume_partition_semantics
      [⟨"IMG_0001".data, ["IMG_0001_1.tif".data]⟩]
      ["IMG_0001_registered.tif".data]).2.2.2.2 ?_
    intro g hg
    rw [List.mem_singleton] at hg
    subst hg
    exact ⟨by decide, by decide, by decide, by decide⟩

end ImageRegistration
